import Mathlib

/-!
Verification development for the octree-indexed point storage and query
engine of the point-cloud viewer: octree addressing, the binary point
record codec, LOD visibility, spatial brush pruning, and the
selection/delete/undo state machine.  All definitions are shallow
embeddings of the JavaScript source in
`static/js/point-cloud-viewer.js` and `static/js/edit/selection-manager.js`.
JavaScript numbers are modelled as rationals (the arithmetic the code
performs on the values of interest is exact), strings as lists of UTF-16
code units (`List Nat`), and the `Infinity` sentinel written into position
buffers as a dedicated constructor.
-/

namespace PCV

/-- A 3-component vector of rationals, modelling a JS `{x, y, z}` triple. -/
structure Vec3 where
  x : ℚ
  y : ℚ
  z : ℚ
deriving DecidableEq, Repr

/-- An RGB color triple, channels as rationals (range 0..1 after decoding). -/
structure Col where
  r : ℚ
  g : ℚ
  b : ℚ
deriving DecidableEq, Repr

/-- Axis-aligned bounding box in the `{lx, ly, lz, ux, uy, uz}` shape used by
`getNodeBoundingBox` and the metadata descriptor. -/
structure Box where
  lx : ℚ
  ly : ℚ
  lz : ℚ
  ux : ℚ
  uy : ℚ
  uz : ℚ
deriving DecidableEq, Repr

/-! ## Octree addressing (`getNodeBoundingBox`, point-cloud-viewer.js 1709-1771)

A node name is the character `r` followed by octant digits; we model the
octant path (the part after `r`) as a list of UTF-16 code units.  The JS
code runs `parseInt(octantPath[i])` on each single character: a character
`'0'..'9'` yields its digit value, any other character yields `NaN`, and
the subsequent bitwise `&` coerces `NaN` to `0` (`ToInt32(NaN) = 0`). -/

/-- Value of `parseInt` on a single UTF-16 code unit, composed with the
`ToInt32` coercion applied by the bitwise `&` (so `NaN` becomes `0`):
code units 48..57 (`'0'..'9'`) give their digit value, all others give 0. -/
def parseOctant (c : Nat) : Nat :=
  if 48 ≤ c ∧ c ≤ 57 then c - 48 else 0

/-- One iteration of the subdivision loop of `getNodeBoundingBox`: halve the
box at its midpoints and keep the half selected by each bit of `octant`
(`octant & 1` for x, `octant & 2` for y, `octant & 4` for z). -/
def subdivideStep (bbox : Box) (octant : Nat) : Box :=
  let midX := (bbox.lx + bbox.ux) / 2
  let midY := (bbox.ly + bbox.uy) / 2
  let midZ := (bbox.lz + bbox.uz) / 2
  { lx := if octant &&& 1 ≠ 0 then midX else bbox.lx
    ux := if octant &&& 1 ≠ 0 then bbox.ux else midX
    ly := if octant &&& 2 ≠ 0 then midY else bbox.ly
    uy := if octant &&& 2 ≠ 0 then bbox.uy else midY
    lz := if octant &&& 4 ≠ 0 then midZ else bbox.lz
    uz := if octant &&& 4 ≠ 0 then bbox.uz else midZ }

/-- `getNodeBoundingBox`: the root path (node name `"r"`, empty octant path)
returns the root box unchanged; otherwise the box is subdivided once per
octant character, root to leaf. -/
def getNodeBoundingBox (rootBbox : Box) (octantPath : List Nat) : Box :=
  if octantPath = [] then rootBbox
  else octantPath.foldl (fun b c => subdivideStep b (parseOctant c)) rootBbox

/-- Claim-side subdivision step, written from the specification's words:
bit 0 of the digit selects the upper half in X, bit 1 in Y, bit 2 in Z. -/
def claimStep (bbox : Box) (o : Nat) : Box :=
  let midX := (bbox.lx + bbox.ux) / 2
  let midY := (bbox.ly + bbox.uy) / 2
  let midZ := (bbox.lz + bbox.uz) / 2
  { lx := if o.testBit 0 then midX else bbox.lx
    ux := if o.testBit 0 then bbox.ux else midX
    ly := if o.testBit 1 then midY else bbox.ly
    uy := if o.testBit 1 then bbox.uy else midY
    lz := if o.testBit 2 then midZ else bbox.lz
    uz := if o.testBit 2 then bbox.uz else midZ }

/-- Claim-side bounds function: process the digit values root-to-leaf. -/
def claimBounds (rootBbox : Box) (digits : List Nat) : Box :=
  digits.foldl claimStep rootBbox

/-- The `[0,0,0]-[8,8,8]` root box of the specification's scenario. -/
def box8 : Box := ⟨0, 0, 0, 8, 8, 8⟩

/-! ## Point record codec (`loadPotreeNodeIfExists`, point-cloud-viewer.js 1799-1841)

The fetched buffer is a `DataView` over raw bytes; we model it as a
`List Nat` of byte values.  `view.getUint8(o)` and `view.getInt32(o, true)`
throw a `RangeError` when the accessed range `[o, o+1)` resp. `[o, o+4)`
exceeds the buffer, which the enclosing `try`/`catch` turns into a failed
load; we model the reads in the `Except Unit` monad. -/

/-- `DataView.getUint8`: bounds-checked single byte read. -/
def readUint8 (buf : List Nat) (o : Nat) : Except Unit Nat :=
  if o < buf.length then .ok (buf.getD o 0) else .error ()

/-- Signed 32-bit value assembled from four little-endian bytes. -/
def int32OfLEBytes (b0 b1 b2 b3 : Nat) : Int :=
  let u := b0 + 256 * b1 + 65536 * b2 + 16777216 * b3
  if u < 2147483648 then (u : Int) else (u : Int) - 4294967296

/-- `DataView.getInt32(o, true)`: bounds-checked little-endian signed read. -/
def readInt32LE (buf : List Nat) (o : Nat) : Except Unit Int :=
  if o + 4 ≤ buf.length then
    .ok (int32OfLEBytes (buf.getD o 0) (buf.getD (o + 1) 0)
          (buf.getD (o + 2) 0) (buf.getD (o + 3) 0))
  else .error ()

/-- One iteration of the point-reading loop: three int32 reads at offsets
`16 i`, `16 i + 4`, `16 i + 8`, then the R, G, B bytes at `16 i + 12..14`
(the fourth trailing byte at `16 i + 15` is never read).  Position is
`quantized * scale + bbox.l_ + offset._` per axis; the viewer adds
`potreeOffset` whenever it is set, and a missing offset behaves like
`(0,0,0)`, so we take the offset as an explicit parameter. -/
def parseRecord (buf : List Nat) (scale : ℚ) (bmin woff : Vec3) (i : Nat) :
    Except Unit (Vec3 × Col) := do
  let x ← readInt32LE buf (16 * i)
  let y ← readInt32LE buf (16 * i + 4)
  let z ← readInt32LE buf (16 * i + 8)
  let r ← readUint8 buf (16 * i + 12)
  let g ← readUint8 buf (16 * i + 13)
  let b ← readUint8 buf (16 * i + 14)
  pure (⟨(x : ℚ) * scale + bmin.x + woff.x,
         (y : ℚ) * scale + bmin.y + woff.y,
         (z : ℚ) * scale + bmin.z + woff.z⟩,
        ⟨(r : ℚ) / 255, (g : ℚ) / 255, (b : ℚ) / 255⟩)

/-- The reading loop `for (let i = 0; i < numPoints; i++)` with
`numPoints = buffer.byteLength / 16` (exact JS division, so the loop body
runs exactly while `16 * i < buffer.length`). -/
def parsePointsFrom (buf : List Nat) (scale : ℚ) (bmin woff : Vec3) (i : Nat) :
    Except Unit (List Vec3 × List Col) :=
  if _h : 16 * i < buf.length then do
    let (p, c) ← parseRecord buf scale bmin woff i
    let (ps, cs) ← parsePointsFrom buf scale bmin woff (i + 1)
    pure (p :: ps, c :: cs)
  else .ok ([], [])
termination_by buf.length - 16 * i
decreasing_by omega

/-- Decode a whole fetched node buffer (the loop from `i = 0`). -/
def parsePoints (buf : List Nat) (scale : ℚ) (bmin woff : Vec3) :
    Except Unit (List Vec3 × List Col) :=
  parsePointsFrom buf scale bmin woff 0

/-- The position value the loop computes for record `i` (total function of
the buffer, used to state what a successful decode returns). -/
def decodedPosition (buf : List Nat) (scale : ℚ) (bmin woff : Vec3) (i : Nat) : Vec3 :=
  ⟨(int32OfLEBytes (buf.getD (16 * i) 0) (buf.getD (16 * i + 1) 0)
      (buf.getD (16 * i + 2) 0) (buf.getD (16 * i + 3) 0) : ℚ) * scale + bmin.x + woff.x,
   (int32OfLEBytes (buf.getD (16 * i + 4) 0) (buf.getD (16 * i + 5) 0)
      (buf.getD (16 * i + 6) 0) (buf.getD (16 * i + 7) 0) : ℚ) * scale + bmin.y + woff.y,
   (int32OfLEBytes (buf.getD (16 * i + 8) 0) (buf.getD (16 * i + 9) 0)
      (buf.getD (16 * i + 10) 0) (buf.getD (16 * i + 11) 0) : ℚ) * scale + bmin.z + woff.z⟩

/-- The color value the loop computes for record `i`. -/
def decodedColor (buf : List Nat) (i : Nat) : Col :=
  ⟨(buf.getD (16 * i + 12) 0 : ℚ) / 255,
   (buf.getD (16 * i + 13) 0 : ℚ) / 255,
   (buf.getD (16 * i + 14) 0 : ℚ) / 255⟩

/-- Result of one `loadPotreeNodeIfExists` body after the buffer has been
fetched: on any exception thrown while parsing, the `catch` block marks the
node failed and nothing is installed; on success the decoded arrays are
installed in the scene and the node is marked loaded. -/
inductive LoadResult where
  | failed
  | loaded (positions : List Vec3) (colors : List Col)
deriving DecidableEq

/-- Process a fetched node buffer: parse, then either fail (no partial
buffer installed — `scene.add` and the node-map insertions only run after
the loop completes) or install the decoded arrays. -/
def processNodeBuffer (buf : List Nat) (scale : ℚ) (bmin woff : Vec3) : LoadResult :=
  match parsePoints buf scale bmin woff with
  | .error _ => .failed
  | .ok (ps, cs) => .loaded ps cs

/-! ## Brush pruning (`bboxIntersectsQuery`, selection-manager.js 509-534)

and the sphere containment test `THREE.Sphere.containsPoint` used on
individual points (`distanceToSquared(center) <= radius * radius`). -/

/-- Box in the `{min, max}` shape used by the query traversal. -/
structure Box3 where
  min : Vec3
  max : Vec3
deriving DecidableEq, Repr

/-- Squared Euclidean distance between two points. -/
def dist3Sq (p c : Vec3) : ℚ :=
  (p.x - c.x) ^ 2 + (p.y - c.y) ^ 2 + (p.z - c.z) ^ 2

/-- Membership of a point in an axis-aligned box. -/
def inBox3 (p : Vec3) (b : Box3) : Prop :=
  b.min.x ≤ p.x ∧ p.x ≤ b.max.x ∧ b.min.y ≤ p.y ∧ p.y ≤ b.max.y ∧
    b.min.z ≤ p.z ∧ p.z ≤ b.max.z

/-- One box contained in another. -/
def box3Subset (inner outer : Box3) : Prop :=
  outer.min.x ≤ inner.min.x ∧ inner.max.x ≤ outer.max.x ∧
    outer.min.y ≤ inner.min.y ∧ inner.max.y ≤ outer.max.y ∧
    outer.min.z ≤ inner.min.z ∧ inner.max.z ≤ outer.max.z

/-- `bboxIntersectsQuery`: clamp the brush center into the box in X and Y;
reject if the squared XY distance to that closest point exceeds
`radius * radius`, or if the box lies entirely above `brushZ + radius`.
(The JS `if (!bbox) return true` null-guard is outside this model: the
claim is about actual boxes.) -/
def bboxIntersectsQuery (bbox : Box3) (brush : Vec3) (radius : ℚ) : Bool :=
  let closestX := max bbox.min.x (min brush.x bbox.max.x)
  let closestY := max bbox.min.y (min brush.y bbox.max.y)
  let distXYSqToBox := (closestX - brush.x) ^ 2 + (closestY - brush.y) ^ 2
  if distXYSqToBox > radius * radius then false
  else if bbox.min.z > brush.z + radius then false
  else true

/-! ## LOD node store (point-cloud-viewer.js 1554-1697)

State relevant to depth control and additive visibility.  Node names are
lists of code units (`'r' = 114`, digits `48..55`); depth is
`nodeName.length - 1`. -/

/-- The viewer fields driving LOD loading and visibility:
`potreeNodes` maps each installed node name to its scene object's
`visible` flag; the three name sets mirror `potreeLoadedNodes`,
`potreeFailedNodes` and `potreeLoading`. -/
structure ViewerLOD where
  potreeNodes : List (List Nat × Bool)
  potreeLoadedNodes : List (List Nat)
  potreeFailedNodes : List (List Nat)
  potreeLoading : List (List Nat)
  currentLODDepth : Nat
deriving DecidableEq

/-- `updatePotreeNodeVisibility(maxDepth)`: every installed node becomes
visible iff `nodeName.length - 1 <= maxDepth`. -/
def updatePotreeNodeVisibility (maxDepth : Nat) (s : ViewerLOD) : ViewerLOD :=
  { s with potreeNodes :=
      s.potreeNodes.map (fun p => (p.1, decide (p.1.length - 1 ≤ maxDepth))) }

/-- `decreaseLODDepth()`: no-op at depth 0; otherwise decrement the depth
and recompute visibility.  The second component is the list of node fetches
the call issues — always empty, since the function never loads. -/
def decreaseLODDepth (s : ViewerLOD) : ViewerLOD × List (List Nat) :=
  if s.currentLODDepth ≤ 0 then (s, [])
  else
    let s' := { s with currentLODDepth := s.currentLODDepth - 1 }
    (updatePotreeNodeVisibility s'.currentLODDepth s', [])

/-- `generateNodes(prefix, currentDepth)` of `loadNodesForDepth`: push the
current name, then recurse into the eight children while
`currentDepth < depth`; the argument here is `depth - currentDepth`. -/
def generateNodes (pre : List Nat) : Nat → List (List Nat)
  | 0 => [pre]
  | d + 1 => pre :: (List.range 8).flatMap (fun i => generateNodes (pre ++ [48 + i]) d)

/-- The fetches `loadNodesForDepth(depth)` issues: all generated names not
already in `potreeLoadedNodes` or `potreeFailedNodes`. -/
def loadNodesForDepth (depth : Nat) (s : ViewerLOD) : List (List Nat) :=
  (generateNodes [114] depth).filter
    (fun name => ¬ s.potreeLoadedNodes.contains name ∧
      ¬ s.potreeFailedNodes.contains name)

/-- `increaseLODDepth()`: no-op at the maximum depth 6; otherwise increment
the depth, issue the loads for the new depth, and recompute visibility. -/
def increaseLODDepth (s : ViewerLOD) : ViewerLOD × List (List Nat) :=
  if s.currentLODDepth ≥ 6 then (s, [])
  else
    let d := s.currentLODDepth + 1
    let s' := { s with currentLODDepth := d }
    (updatePotreeNodeVisibility d s', loadNodesForDepth d s')

/-! ## Selection and edit state machine (selection-manager.js)

Positions live in `Float32Array`s; `deleteSelectedPoints` overwrites the
three coordinates of a deleted point with `Infinity`.  We model a stored
point position as either a finite vector or the all-`Infinity` sentinel.
All IEEE arithmetic the code performs on a sentinel position (adding a
finite offset, squared distance to a finite center) yields `Infinity`
again, and `Infinity <= r * r` is false for every finite radius, which the
`Pos.inf` case of `brushContains` reflects. -/

/-- A stored point position: finite coordinates or the deletion sentinel. -/
inductive Pos where
  | fin (v : Vec3)
  | inf
deriving DecidableEq, Repr

/-- Adding the point-cloud offset to a stored position (`Infinity + c`
stays `Infinity`). -/
def addOffset (p : Pos) (o : Vec3) : Pos :=
  match p with
  | .fin v => .fin ⟨v.x + o.x, v.y + o.y, v.z + o.z⟩
  | .inf => .inf

/-- `THREE.Sphere.containsPoint`: squared distance to the center at most
`radius * radius`; always false on the `Infinity` sentinel. -/
def brushContains (center : Vec3) (radius : ℚ) (p : Pos) : Bool :=
  match p with
  | .fin v => decide (dist3Sq v center ≤ radius * radius)
  | .inf => false

/-- Per-node point buffer as the selection manager sees it: the live
`position`/`color` attribute arrays, the `userData.originalPositions` /
`userData.originalColors` snapshots taken by `storeOriginalPositions` at
load time, and the `userData.deletedPoints` index set. -/
structure NodeBuf where
  positions : List Pos
  colors : List Col
  originalPositions : List Pos
  originalColors : List Col
  deletedPoints : Finset ℕ
deriving DecidableEq

/-- A selection map (JS `Map` from node name to `Set` of indices),
in insertion order. -/
abbrev SelMap : Type := List (List Nat × Finset ℕ)

/-- `Map.get`: first entry with the given key. -/
def selGet (m : SelMap) (k : List Nat) : Option (Finset ℕ) :=
  (m.find? (fun p => decide (p.1 = k))).map (·.2)

/-- `Map.has`. -/
def selHas (m : SelMap) (k : List Nat) : Bool :=
  (m.find? (fun p => decide (p.1 = k))).isSome

/-- Insert `i` into the set stored at key `k` (the map must have the key;
`paintSelection` creates the entry first). -/
def selInsert (m : SelMap) (k : List Nat) (i : ℕ) : SelMap :=
  m.map (fun p => if p.1 = k then (p.1, insert i p.2) else p)

/-- `countSelectedPoints()`: total cardinality over all node sets. -/
def countSelected (m : SelMap) : ℕ :=
  (m.map (fun p => p.2.card)).sum

/-- The selection manager state together with the loaded nodes it operates
on (`getLoadedNodes()` returns `nodes`; `viewerOffset` is the
`potreePointCloud.position` offset `getNodePositionData` reports, `(0,0,0)`
when absent).  Undo/redo stacks are JS arrays used with `push`/`pop`, so
the top of each stack is the last list element; the only action type is
`delete`, whose payload is the snapshotted selection map. -/
structure EditState where
  nodes : List (List Nat × NodeBuf)
  selectedPoints : SelMap
  selectionCount : ℕ
  undoStack : List SelMap
  redoStack : List SelMap
  viewerOffset : Vec3
deriving DecidableEq

/-- One index of the inner loop of `paintSelection`: if the offset position
is inside the brush sphere, ensure the node has a selection set and add the
index if new, counting the newly selected points. -/
def paintStep (center : Vec3) (radius : ℚ) (off : Vec3) (name : List Nat)
    (buf : NodeBuf) (a : SelMap × ℕ) (i : ℕ) : SelMap × ℕ :=
  if brushContains center radius (addOffset (buf.positions.getD i .inf) off) then
    let m := if selHas a.1 name then a.1 else a.1 ++ [(name, ∅)]
    if i ∈ (selGet m name).getD ∅ then (m, a.2)
    else (selInsert m name i, a.2 + 1)
  else a

/-- The inner loop of `paintSelection` for one node. -/
def paintNode (center : Vec3) (radius : ℚ) (off : Vec3) (name : List Nat)
    (buf : NodeBuf) (acc : SelMap × ℕ) : SelMap × ℕ :=
  (List.range buf.positions.length).foldl (paintStep center radius off name buf) acc

/-- `paintSelection()`: early return when no nodes are loaded; otherwise
run the brush test over every point of every node, and update
`selectionCount` by a full recount when anything new was selected. -/
def paintSelection (center : Vec3) (radius : ℚ) (s : EditState) : EditState :=
  if s.nodes = [] then s
  else
    let r := s.nodes.foldl
      (fun a p => paintNode center radius s.viewerOffset p.1 p.2 a)
      (s.selectedPoints, 0)
    if r.2 > 0 then
      { s with selectedPoints := r.1, selectionCount := countSelected r.1 }
    else { s with selectedPoints := r.1 }

/-- Overwrite the positions at the given indices with the sentinel,
starting at index `start` (the recursion carries the absolute index). -/
def overwriteIdx (idxs : Finset ℕ) : List Pos → ℕ → List Pos
  | [], _ => []
  | p :: ps, start =>
    (if start ∈ idxs then Pos.inf else p) :: overwriteIdx idxs ps (start + 1)

/-- Restore the entries at the given indices from the snapshot list (an
out-of-range snapshot read is `undefined`, which the `Float32Array` write
turns into `NaN`; like the sentinel it is non-renderable and fails every
containment test, so it is modelled by the sentinel). -/
def restoreIdx (idxs : Finset ℕ) (orig : List Pos) : List Pos → ℕ → List Pos
  | [], _ => []
  | p :: ps, start =>
    (if start ∈ idxs then orig.getD start Pos.inf else p) ::
      restoreIdx idxs orig ps (start + 1)

/-- Restore colors at the given indices from the original-color snapshot. -/
def restoreColIdx (idxs : Finset ℕ) (orig : List Col) : List Col → ℕ → List Col
  | [], _ => []
  | c :: cs, start =>
    (if start ∈ idxs then orig.getD start ⟨0, 0, 0⟩ else c) ::
      restoreColIdx idxs orig cs (start + 1)

/-- `restorePointColors(nodeName, indices)` applied to one node's buffer. -/
def restoreColorsBuf (idxs : Finset ℕ) (buf : NodeBuf) : NodeBuf :=
  { buf with colors := restoreColIdx idxs buf.originalColors buf.colors 0 }

/-- The per-node body of `deleteSelectedPoints` (lines 1304-1328) and,
verbatim the same operation, of `redo` (lines 1397-1416): skip nodes with
no or an empty selected index set; otherwise add the indices to
`userData.deletedPoints` and overwrite their positions with the
sentinel. -/
def markDeletedNode (sel : SelMap) (p : List Nat × NodeBuf) : List Nat × NodeBuf :=
  match selGet sel p.1 with
  | none => p
  | some idxs =>
    if idxs = ∅ then p
    else (p.1, { p.2 with
      deletedPoints := p.2.deletedPoints ∪ idxs,
      positions := overwriteIdx idxs p.2.positions 0 })

/-- The per-node body of `undo`: restore positions of the action's indices
from `userData.originalPositions`, remove them from the deleted set, and
restore their colors from `userData.originalColors`. -/
def restoreNode (action : SelMap) (p : List Nat × NodeBuf) : List Nat × NodeBuf :=
  match selGet action p.1 with
  | none => p
  | some idxs =>
    if idxs = ∅ then p
    else (p.1, restoreColorsBuf idxs { p.2 with
      positions := restoreIdx idxs p.2.originalPositions p.2.positions 0,
      deletedPoints := p.2.deletedPoints \ idxs })

/-- `deleteSelectedPoints()`: no-op when `selectionCount` is 0; otherwise
snapshot the selection onto the undo stack, clear the redo stack, mark the
selected index set of every node as deleted and overwrite those positions
with the sentinel, then clear the selection. -/
def deleteSelectedPoints (s : EditState) : EditState :=
  if s.selectionCount = 0 then s
  else
    { s with nodes := s.nodes.map (markDeletedNode s.selectedPoints),
             selectedPoints := [],
             selectionCount := 0,
             undoStack := s.undoStack ++ [s.selectedPoints],
             redoStack := [] }

/-- `undo()`: no-op on an empty undo stack; otherwise pop the last action,
push it on the redo stack, restore the positions of its indices from the
original snapshots, remove them from the deleted sets, and restore their
colors. -/
def undo (s : EditState) : EditState :=
  match s.undoStack.getLast? with
  | none => s
  | some action =>
    { s with nodes := s.nodes.map (restoreNode action),
             undoStack := s.undoStack.dropLast,
             redoStack := s.redoStack ++ [action] }

/-- `redo()`: no-op on an empty redo stack; otherwise pop the last action,
push it back on the undo stack, and re-apply its deletion marks and the
position sentinels. -/
def redo (s : EditState) : EditState :=
  match s.redoStack.getLast? with
  | none => s
  | some action =>
    { s with nodes := s.nodes.map (markDeletedNode action),
             undoStack := s.undoStack ++ [action],
             redoStack := s.redoStack.dropLast }

/-- `clearSelection()`: restore the colors of the selected indices and
empty the selection; deletion state is untouched. -/
def clearSelection (s : EditState) : EditState :=
  let nodes' := s.nodes.map (fun p =>
    match selGet s.selectedPoints p.1 with
    | none => p
    | some idxs => (p.1, restoreColorsBuf idxs p.2))
  { s with nodes := nodes', selectedPoints := [], selectionCount := 0 }

/-- The edit commands reachable from the input layer: paint gestures (one
brush application), delete, undo, redo, clear. -/
inductive EditOp where
  | paint (center : Vec3) (radius : ℚ)
  | delete
  | undo
  | redo
  | clear
deriving DecidableEq

/-- Apply one edit command. -/
def applyOp : EditOp → EditState → EditState
  | .paint c r => paintSelection c r
  | .delete => deleteSelectedPoints
  | .undo => undo
  | .redo => redo
  | .clear => clearSelection

/-- Run a command sequence left to right. -/
def runOps (ops : List EditOp) (s : EditState) : EditState :=
  ops.foldl (fun st op => applyOp op st) s

/-- Default node entry used when indexing the node list in statements. -/
def dummyNode : List Nat × NodeBuf := ([], ⟨[], [], [], [], ∅⟩)

/-- Buffer-consistency invariant of a loaded node store: per node, the
position array has the length of its load-time snapshot, the colors are
the load-time colors (nothing in the manager ever rewrites colors to
anything else), and a position is the sentinel exactly on the deleted
indices and the original value elsewhere. -/
def BufConsistent (s : EditState) : Prop :=
  ∀ p ∈ s.nodes,
    p.2.positions.length = p.2.originalPositions.length ∧
    p.2.colors = p.2.originalColors ∧
    ∀ i, i < p.2.positions.length →
      p.2.positions.getD i .inf =
        (if i ∈ p.2.deletedPoints then .inf else p.2.originalPositions.getD i .inf)

/-- Selection freshness: no selected point is currently marked deleted, and
every selected index is in range of its owning node's buffer. -/
def SelFresh (s : EditState) : Prop :=
  ∀ e ∈ s.selectedPoints, ∀ q ∈ s.nodes, q.1 = e.1 →
    ∀ i ∈ e.2, i ∉ q.2.deletedPoints ∧ i < q.2.positions.length

/-- A one-point node buffer in its freshly loaded state: the point at the
origin, red color snapshot, nothing deleted. -/
def bufLive : NodeBuf :=
  ⟨[.fin ⟨0, 0, 0⟩], [⟨0, 0, 0⟩], [.fin ⟨0, 0, 0⟩], [⟨0, 0, 0⟩], ∅⟩

/-- The same buffer after its single point has been deleted. -/
def bufDead : NodeBuf :=
  ⟨[.inf], [⟨0, 0, 0⟩], [.fin ⟨0, 0, 0⟩], [⟨0, 0, 0⟩], {0}⟩

/-- The selection map (and delete-action snapshot) holding point 0 of the
root node. -/
def selA : SelMap := [([114], {0})]

/-- Initial manager state over a single freshly loaded root node. -/
def editInit : EditState :=
  ⟨[([114], bufLive)], [], 0, [], [], ⟨0, 0, 0⟩⟩

/-- State family: root point alive, selection `sel` with count `cnt`,
given undo and redo stacks. -/
def stLive (ust rst : List SelMap) (sel : SelMap) (cnt : ℕ) : EditState :=
  ⟨[([114], bufLive)], sel, cnt, ust, rst, ⟨0, 0, 0⟩⟩

/-- State family: root point deleted. -/
def stDead (ust rst : List SelMap) (sel : SelMap) (cnt : ℕ) : EditState :=
  ⟨[([114], bufDead)], sel, cnt, ust, rst, ⟨0, 0, 0⟩⟩

/-- Command sequences whose runs grow the undo stack without bound: one
paint-and-delete, then `n` undo/repaint/redo/delete cycles (each cycle
removes and re-adds the top action and then pushes a fresh one). -/
def opsN : ℕ → List EditOp
  | 0 => [.paint ⟨0, 0, 0⟩ 1, .delete]
  | n + 1 => opsN n ++ [.undo, .paint ⟨0, 0, 0⟩ 1, .redo, .delete]

/-! ## Brush radius (`updateBrushSize`, `onWheel`, selection-manager.js 116-133, 211-219) -/

/-- `updateBrushSize(newRadius)`: the new `brushRadius` value. -/
def updateBrushSize (newRadius : ℚ) : ℚ :=
  max 0.05 (min 5.0 newRadius)

/-- `onWheel`: scale the current radius by 0.9 (scroll down) or 1.1
(scroll up) and clamp through `updateBrushSize`. -/
def onWheelRadius (deltaY brushRadius : ℚ) : ℚ :=
  let delta := if deltaY > 0 then (0.9 : ℚ) else 1.1
  updateBrushSize (brushRadius * delta)

/-! ## Theorems -/

/-! ### Octree addressing -/

lemma subdivideStep_eq_claimStep (b : Box) (d : Nat) (hd : d < 8) :
    subdivideStep b d = claimStep b d := by
  interval_cases d <;> rfl

lemma subdivideStep_mod8 (b : Box) (d : Nat) (hd : d ≤ 9) :
    subdivideStep b d = claimStep b (d % 8) := by
  interval_cases d <;> rfl

lemma parseOctant_lt_8 {c : Nat} (h : 48 ≤ c ∧ c ≤ 55) : parseOctant c < 8 := by
  unfold parseOctant
  rw [if_pos ⟨h.1, by omega⟩]
  omega

lemma parseOctant_le_9 (c : Nat) : parseOctant c ≤ 9 := by
  unfold parseOctant
  split <;> omega

lemma getNodeBoundingBox_eq_fold (rootBbox : Box) (octantPath : List Nat) :
    getNodeBoundingBox rootBbox octantPath =
      octantPath.foldl (fun b c => subdivideStep b (parseOctant c)) rootBbox := by
  unfold getNodeBoundingBox
  split
  · subst octantPath; rfl
  · rfl

/-- C1: octree addressing is correct — the root path returns the root box
unchanged; otherwise each octant digit halves the current box at its
midpoint per axis, keeping the upper X half iff bit 0 of the digit is set,
upper Y iff bit 1, upper Z iff bit 2; and on root box `[0,0,0]-[8,8,8]`
the path `"1"` yields `[4,0,0]-[8,4,4]` and path `"12"` yields
`[4,2,0]-[6,4,2]`. -/
theorem octree_addressing_correct :
    (∀ root : Box, getNodeBoundingBox root [] = root) ∧
    (∀ (root : Box) (path : List Nat), (∀ c ∈ path, 48 ≤ c ∧ c ≤ 55) →
      getNodeBoundingBox root path = claimBounds root (path.map parseOctant)) ∧
    getNodeBoundingBox box8 [49] = ⟨4, 0, 0, 8, 4, 4⟩ ∧
    getNodeBoundingBox box8 [49, 50] = ⟨4, 2, 0, 6, 4, 2⟩ := by
  refine ⟨fun root => rfl, ?_,
    by norm_num [getNodeBoundingBox, subdivideStep, parseOctant, box8] <;> decide,
    by norm_num [getNodeBoundingBox, subdivideStep, parseOctant, box8,
         show (2 : Nat) &&& 1 = 0 from rfl, show (2 : Nat) &&& 4 = 0 from rfl] <;> decide⟩
  intro root path hpath
  rw [getNodeBoundingBox_eq_fold]
  unfold claimBounds
  rw [List.foldl_map]
  induction path generalizing root with
  | nil => rfl
  | cons c cs ih =>
    have hc := hpath c (List.mem_cons_self c cs)
    simp only [List.foldl_cons]
    rw [subdivideStep_eq_claimStep root (parseOctant c) (parseOctant_lt_8 hc)]
    exact ih _ (fun d hd => hpath d (List.mem_cons_of_mem c hd))

/-- C1 witness: the general statement instantiated on root box
`[0,0,0]-[8,8,8]` and the single-digit path `"1"`. -/
theorem octree_addressing_correct_witness :
    getNodeBoundingBox box8 [49] = claimBounds box8 ([49].map parseOctant) :=
  octree_addressing_correct.2.1 box8 [49] (by decide)

/-- C8 counterexample: the digit `'8'` (code unit 56) is not rejected —
`getNodeBoundingBox` returns an ordinary box for it, the same box the
digit `'0'` produces, instead of failing with an `InvalidNodePath` error
(the source has no error path at all). -/
theorem invalid_digit_not_rejected :
    getNodeBoundingBox box8 [56] = getNodeBoundingBox box8 [48] ∧
    getNodeBoundingBox box8 [56] = ⟨0, 0, 0, 4, 4, 4⟩ := by
  constructor <;>
    norm_num [getNodeBoundingBox, subdivideStep, parseOctant, box8,
      show (8 : Nat) &&& 1 = 0 from rfl, show (8 : Nat) &&& 2 = 0 from rfl,
      show (8 : Nat) &&& 4 = 0 from rfl] <;> decide

/-- C8 amended: digits outside 0..7 are not rejected; the addressing
function is total, and every character is processed according to the low
three bits of its `parseInt` value (`'8'` like `'0'`, `'9'` like `'1'`,
non-digit characters like `'0'`), still affecting no other node. -/
theorem invalid_digit_amended (root : Box) (path : List Nat) :
    getNodeBoundingBox root path =
      claimBounds root (path.map (fun c => parseOctant c % 8)) := by
  rw [getNodeBoundingBox_eq_fold]
  unfold claimBounds
  rw [List.foldl_map]
  induction path generalizing root with
  | nil => rfl
  | cons c cs ih =>
    simp only [List.foldl_cons]
    rw [subdivideStep_mod8 root (parseOctant c) (parseOctant_le_9 c)]
    exact ih _

/-! ### Brush radius clamp -/

/-- C10: `updateBrushSize` clamps every rational argument into
`[0.05, 5.0]`, and hence every wheel-driven resize (multiply by 0.9 or
1.1, then clamp) leaves the brush radius in `[0.05, 5.0]`. -/
theorem brush_radius_invariant :
    (∀ x : ℚ, 0.05 ≤ updateBrushSize x ∧ updateBrushSize x ≤ 5.0) ∧
    (∀ deltaY r : ℚ, 0.05 ≤ onWheelRadius deltaY r ∧ onWheelRadius deltaY r ≤ 5.0) := by
  have h : ∀ x : ℚ, 0.05 ≤ updateBrushSize x ∧ updateBrushSize x ≤ 5.0 := by
    intro x
    unfold updateBrushSize
    exact ⟨le_max_left _ _, max_le (by norm_num) (min_le_left _ _)⟩
  exact ⟨h, fun deltaY r => h _⟩

/-! ### Pruning soundness -/

lemma clamp_sq_le (lo hi c pv : ℚ) (h1 : lo ≤ pv) (h2 : pv ≤ hi) :
    (max lo (min c hi) - c) ^ 2 ≤ (pv - c) ^ 2 := by
  rcases le_total c lo with hc | hc
  · rw [min_eq_left (le_trans hc (le_trans h1 h2)), max_eq_left hc]
    nlinarith
  · rcases le_total c hi with hh | hh
    · rw [min_eq_left hh, max_eq_right hc]
      nlinarith
    · rw [min_eq_right hh, max_eq_right (le_trans h1 h2)]
      nlinarith

/-- C3: pruning is sound — whenever `bboxIntersectsQuery` returns `false`
for a box and a brush sphere of nonnegative radius, no point inside the
box passes the sphere containment test (squared distance at most
`radius * radius`), and neither does any point of any sub-box, so skipping
the pruned box or its subtree loses no qualifying point. -/
theorem pruning_sound (b : Box3) (c : Vec3) (r : ℚ) (hr : 0 ≤ r)
    (hfalse : bboxIntersectsQuery b c r = false) :
    (∀ p : Vec3, inBox3 p b → ¬ dist3Sq p c ≤ r * r) ∧
    (∀ (b' : Box3) (p : Vec3), box3Subset b' b → inBox3 p b' →
      ¬ dist3Sq p c ≤ r * r) := by
  have key : ∀ p : Vec3, inBox3 p b → ¬ dist3Sq p c ≤ r * r := by
    intro p hp hle
    obtain ⟨hx1, hx2, hy1, hy2, hz1, hz2⟩ := hp
    by_cases hA : (max b.min.x (min c.x b.max.x) - c.x) ^ 2 +
        (max b.min.y (min c.y b.max.y) - c.y) ^ 2 > r * r
    · have hxc := clamp_sq_le b.min.x b.max.x c.x p.x hx1 hx2
      have hyc := clamp_sq_le b.min.y b.max.y c.y p.y hy1 hy2
      unfold dist3Sq at hle
      nlinarith [sq_nonneg (p.z - c.z)]
    · have hB : b.min.z > c.z + r := by
        simp only [bboxIntersectsQuery] at hfalse
        rw [if_neg hA] at hfalse
        by_cases hB : b.min.z > c.z + r
        · exact hB
        · rw [if_neg hB] at hfalse
          exact absurd hfalse (by simp)
      have hzgt : p.z - c.z > r := by linarith
      unfold dist3Sq at hle
      nlinarith [sq_nonneg (p.x - c.x), sq_nonneg (p.y - c.y)]
  refine ⟨key, fun b' p hsub hp => key p ?_⟩
  obtain ⟨s1, s2, s3, s4, s5, s6⟩ := hsub
  obtain ⟨t1, t2, t3, t4, t5, t6⟩ := hp
  exact ⟨le_trans s1 t1, le_trans t2 s2, le_trans s3 t3, le_trans t4 s4,
    le_trans s5 t5, le_trans t6 s6⟩

/-- C3 witness: a box entirely to the right of a unit brush sphere at the
origin is pruned, and its points fail the containment test. -/
theorem pruning_sound_witness :
    ¬ dist3Sq ⟨3, 0, 0⟩ ⟨0, 0, 0⟩ ≤ 1 * 1 :=
  (pruning_sound ⟨⟨3, 0, 0⟩, ⟨4, 1, 1⟩⟩ ⟨0, 0, 0⟩ 1 (by norm_num)
    (by norm_num [bboxIntersectsQuery])).1 ⟨3, 0, 0⟩ (by unfold inBox3; norm_num)

/-! ### Additive LOD visibility -/

/-- C5: after every visibility update, an installed node is visible iff
its depth (`name.length - 1`) is at most the given depth, and the update
neither adds nor removes nodes; `decreaseLODDepth` issues no fetches and
unloads nothing (loaded/failed sets and the node map's keys are
untouched); and re-increasing the depth issues no fetch when every node
name of the target depth is already loaded or failed. -/
theorem additive_lod_visibility :
    (∀ (d : Nat) (s : ViewerLOD) (nm : List Nat) (vis : Bool),
        (nm, vis) ∈ (updatePotreeNodeVisibility d s).potreeNodes →
        (vis = true ↔ nm.length - 1 ≤ d)) ∧
    (∀ (d : Nat) (s : ViewerLOD),
        (updatePotreeNodeVisibility d s).potreeNodes.map Prod.fst =
          s.potreeNodes.map Prod.fst) ∧
    (∀ s : ViewerLOD,
        (decreaseLODDepth s).2 = [] ∧
        (decreaseLODDepth s).1.potreeLoadedNodes = s.potreeLoadedNodes ∧
        (decreaseLODDepth s).1.potreeFailedNodes = s.potreeFailedNodes ∧
        (decreaseLODDepth s).1.potreeNodes.map Prod.fst =
          s.potreeNodes.map Prod.fst) ∧
    (∀ s : ViewerLOD, s.currentLODDepth < 6 →
        (∀ nm ∈ generateNodes [114] (s.currentLODDepth + 1),
            nm ∈ s.potreeLoadedNodes ∨ nm ∈ s.potreeFailedNodes) →
        (increaseLODDepth s).2 = []) := by
  have hmapfst : ∀ (d : Nat) (s : ViewerLOD),
      (updatePotreeNodeVisibility d s).potreeNodes.map Prod.fst =
        s.potreeNodes.map Prod.fst := by
    intro d s
    unfold updatePotreeNodeVisibility
    simp [List.map_map, Function.comp]
  refine ⟨?_, hmapfst, ?_, ?_⟩
  · intro d s nm vis h
    unfold updatePotreeNodeVisibility at h
    simp only [List.mem_map] at h
    obtain ⟨p, _, hp⟩ := h
    have hv : vis = decide (p.1.length - 1 ≤ d) := (Prod.mk.injEq _ _ _ _ ▸ hp).2.symm
    have hn : p.1 = nm := (Prod.mk.injEq _ _ _ _ ▸ hp).1
    subst hn
    simp [hv]
  · intro s
    unfold decreaseLODDepth
    split
    · exact ⟨rfl, rfl, rfl, rfl⟩
    · exact ⟨rfl, rfl, rfl, hmapfst _ _⟩
  · intro s hd hall
    unfold increaseLODDepth
    rw [if_neg (by omega)]
    simp only [loadNodesForDepth]
    rw [List.filter_eq_nil_iff]
    intro nm hnm
    intro hcon
    have hx := of_decide_eq_true hcon
    rcases hall nm hnm with hm | hm
    · exact hx.1 (List.elem_iff.mpr hm)
    · exact hx.2 (List.elem_iff.mpr hm)

/-- C5 witness: with depth 0 and every name of depth ≤ 1 already loaded,
`increaseLODDepth` issues no fetch. -/
theorem additive_lod_visibility_witness :
    (increaseLODDepth
      { potreeNodes := [([114], true)],
        potreeLoadedNodes := generateNodes [114] 1,
        potreeFailedNodes := [], potreeLoading := [],
        currentLODDepth := 0 }).2 = [] :=
  additive_lod_visibility.2.2.2
    { potreeNodes := [([114], true)],
      potreeLoadedNodes := generateNodes [114] 1,
      potreeFailedNodes := [], potreeLoading := [],
      currentLODDepth := 0 } (by decide) (by decide)

/-! ### Point record codec -/

lemma except_bind_ok {α β : Type} (v : α) (f : α → Except Unit β) :
    ((Except.ok v : Except Unit α) >>= f) = f v := rfl

lemma except_bind_err {α β : Type} (f : α → Except Unit β) :
    ((Except.error () : Except Unit α) >>= f) = .error () := rfl

lemma range_map_shift {α : Type} (g : ℕ → α) (k i : ℕ) :
    (List.range (k + 1)).map (fun j => g (i + j)) =
      g i :: (List.range k).map (fun j => g (i + 1 + j)) := by
  rw [List.range_succ_eq_map, List.map_cons, List.map_map]
  refine congrArg₂ List.cons (by rw [Nat.add_zero]) ?_
  refine List.map_congr_left fun a _ => ?_
  show g (i + (a + 1)) = g (i + 1 + a)
  exact congrArg g (by omega)

lemma readUint8_ok (buf : List Nat) (o : Nat) (h : o < buf.length) :
    readUint8 buf o = .ok (buf.getD o 0) := by
  unfold readUint8
  rw [if_pos h]

lemma readUint8_err (buf : List Nat) (o : Nat) (h : ¬ o < buf.length) :
    readUint8 buf o = .error () := by
  unfold readUint8
  rw [if_neg h]

lemma readInt32LE_ok (buf : List Nat) (o : Nat) (h : o + 4 ≤ buf.length) :
    readInt32LE buf o =
      .ok (int32OfLEBytes (buf.getD o 0) (buf.getD (o + 1) 0)
            (buf.getD (o + 2) 0) (buf.getD (o + 3) 0)) := by
  unfold readInt32LE
  rw [if_pos h]

lemma readInt32LE_err (buf : List Nat) (o : Nat) (h : ¬ o + 4 ≤ buf.length) :
    readInt32LE buf o = .error () := by
  unfold readInt32LE
  rw [if_neg h]

lemma parseRecord_ok (buf : List Nat) (scale : ℚ) (bmin woff : Vec3) (i : Nat)
    (h : 16 * i + 15 ≤ buf.length) :
    parseRecord buf scale bmin woff i =
      .ok (decodedPosition buf scale bmin woff i, decodedColor buf i) := by
  have h1 := readInt32LE_ok buf (16 * i) (by omega)
  have h2 := readInt32LE_ok buf (16 * i + 4) (by omega)
  have h3 := readInt32LE_ok buf (16 * i + 8) (by omega)
  have h4 := readUint8_ok buf (16 * i + 12) (by omega)
  have h5 := readUint8_ok buf (16 * i + 13) (by omega)
  have h6 := readUint8_ok buf (16 * i + 14) (by omega)
  unfold parseRecord
  simp only [h1, h2, h3, h4, h5, h6]
  rfl

lemma parseRecord_err (buf : List Nat) (scale : ℚ) (bmin woff : Vec3) (i : Nat)
    (h : buf.length < 16 * i + 15) :
    parseRecord buf scale bmin woff i = .error () := by
  unfold parseRecord
  rcases Nat.lt_or_ge buf.length (16 * i + 4) with h1 | h1
  · simp only [readInt32LE_err buf (16 * i) (by omega)]
    rfl
  · rcases Nat.lt_or_ge buf.length (16 * i + 8) with h2 | h2
    · simp only [readInt32LE_ok buf (16 * i) (by omega),
        readInt32LE_err buf (16 * i + 4) (by omega)]
      rfl
    · rcases Nat.lt_or_ge buf.length (16 * i + 12) with h3 | h3
      · simp only [readInt32LE_ok buf (16 * i) (by omega),
          readInt32LE_ok buf (16 * i + 4) (by omega),
          readInt32LE_err buf (16 * i + 8) (by omega)]
        rfl
      · rcases Nat.lt_or_ge buf.length (16 * i + 13) with h4 | h4
        · simp only [readInt32LE_ok buf (16 * i) (by omega),
            readInt32LE_ok buf (16 * i + 4) (by omega),
            readInt32LE_ok buf (16 * i + 8) (by omega),
            readUint8_err buf (16 * i + 12) (by omega)]
          rfl
        · rcases Nat.lt_or_ge buf.length (16 * i + 14) with h5 | h5
          · simp only [readInt32LE_ok buf (16 * i) (by omega),
              readInt32LE_ok buf (16 * i + 4) (by omega),
              readInt32LE_ok buf (16 * i + 8) (by omega),
              readUint8_ok buf (16 * i + 12) (by omega),
              readUint8_err buf (16 * i + 13) (by omega)]
            rfl
          · simp only [readInt32LE_ok buf (16 * i) (by omega),
              readInt32LE_ok buf (16 * i + 4) (by omega),
              readInt32LE_ok buf (16 * i + 8) (by omega),
              readUint8_ok buf (16 * i + 12) (by omega),
              readUint8_ok buf (16 * i + 13) (by omega),
              readUint8_err buf (16 * i + 14) (by omega)]
            rfl

lemma parsePointsFrom_complete (buf : List Nat) (scale : ℚ) (bmin woff : Vec3)
    (N : Nat) (hlen : buf.length = 16 * N) :
    ∀ k i, N = i + k →
      parsePointsFrom buf scale bmin woff i =
        .ok ((List.range k).map fun j => decodedPosition buf scale bmin woff (i + j),
             (List.range k).map fun j => decodedColor buf (i + j)) := by
  intro k
  induction k with
  | zero =>
    intro i hi
    rw [parsePointsFrom, dif_neg (by omega)]
    rfl
  | succ k ih =>
    intro i hi
    rw [parsePointsFrom, dif_pos (by omega)]
    rw [parseRecord_ok buf scale bmin woff i (by omega)]
    rw [ih (i + 1) (by omega)]
    rw [range_map_shift (decodedPosition buf scale bmin woff) k i,
        range_map_shift (decodedColor buf) k i]
    rfl

lemma parsePointsFrom_err (buf : List Nat) (scale : ℚ) (bmin woff : Vec3)
    (hr1 : 1 ≤ buf.length % 16) (hr2 : buf.length % 16 ≤ 14) :
    ∀ k i, buf.length < 16 * i + k → 16 * i ≤ buf.length →
      parsePointsFrom buf scale bmin woff i = .error () := by
  intro k
  induction k with
  | zero => intro i hik hle; exact absurd hik (by omega)
  | succ k ih =>
    intro i hik hle
    have h16 : 16 * i < buf.length := by omega
    rw [parsePointsFrom, dif_pos h16]
    rcases Nat.lt_or_ge buf.length (16 * (i + 1)) with hlast | hmore
    · rw [parseRecord_err buf scale bmin woff i (by omega)]
      rfl
    · rw [parseRecord_ok buf scale bmin woff i (by omega)]
      rw [ih (i + 1) (by omega) (by omega)]
      rfl

/-- C2: point record decoding — for every buffer of length `16 N`, decoding
succeeds and yields exactly `N` positions and `N` colors, position `i`
being the three little-endian signed int32s of record `i` times the scale
plus the node box minimum plus the world offset per axis, and color `i`
being the first three trailing bytes divided by 255 (the fourth byte is
never read); the record `(x=100, y=0, z=0, r=255, g=0, b=0, a=0)` with
scale `0.01`, node box min `(0,0,0)` and world offset `(0,0,0)` decodes to
position `(1,0,0)` and color `(1,0,0)`. -/
theorem point_record_decoding (buf : List Nat) (scale : ℚ) (bmin woff : Vec3)
    (N : Nat) (hlen : buf.length = 16 * N) :
    parsePoints buf scale bmin woff =
      .ok ((List.range N).map fun i => decodedPosition buf scale bmin woff i,
           (List.range N).map fun i => decodedColor buf i) ∧
    ((List.range N).map fun i => decodedPosition buf scale bmin woff i).length = N ∧
    ((List.range N).map fun i => decodedColor buf i).length = N ∧
    parsePoints [100, 0, 0, 0, 0, 0, 0, 0, 0, 0, 0, 0, 255, 0, 0, 0] (1 / 100)
        ⟨0, 0, 0⟩ ⟨0, 0, 0⟩ = .ok ([⟨1, 0, 0⟩], [⟨1, 0, 0⟩]) := by
  refine ⟨?_, by simp, by simp, ?_⟩
  · have h := parsePointsFrom_complete buf scale bmin woff N hlen N 0 (by omega)
    unfold parsePoints
    simpa using h
  · have h := parsePointsFrom_complete [100, 0, 0, 0, 0, 0, 0, 0, 0, 0, 0, 0, 255, 0, 0, 0]
      (1 / 100) ⟨0, 0, 0⟩ ⟨0, 0, 0⟩ 1 (by norm_num) 1 0 (by omega)
    unfold parsePoints
    rw [h]
    simp only [show List.range 1 = [0] from rfl, List.map_cons, List.map_nil]
    norm_num [decodedPosition, decodedColor, int32OfLEBytes]

/-- C2 witness: the general statement applied to the 16-byte scenario
record. -/
theorem point_record_decoding_witness :
    parsePoints [100, 0, 0, 0, 0, 0, 0, 0, 0, 0, 0, 0, 255, 0, 0, 0] (1 / 100)
        ⟨0, 0, 0⟩ ⟨0, 0, 0⟩ =
      .ok ((List.range 1).map fun i =>
              decodedPosition [100, 0, 0, 0, 0, 0, 0, 0, 0, 0, 0, 0, 255, 0, 0, 0]
                (1 / 100) ⟨0, 0, 0⟩ ⟨0, 0, 0⟩ i,
           (List.range 1).map fun i =>
              decodedColor [100, 0, 0, 0, 0, 0, 0, 0, 0, 0, 0, 0, 255, 0, 0, 0] i) :=
  (point_record_decoding [100, 0, 0, 0, 0, 0, 0, 0, 0, 0, 0, 0, 255, 0, 0, 0]
    (1 / 100) ⟨0, 0, 0⟩ ⟨0, 0, 0⟩ 1 (by norm_num)).1

/-- C7 counterexample: a fetched buffer of 15 bytes (length not a multiple
of 16) does NOT fail — the loop runs once (`0 < 15/16` is false only from
`i = 1`), every read of the single record is in bounds because the 16th
byte (the ignored alpha channel) is never read, and the node is marked
loaded with a one-point buffer installed. -/
theorem truncated_buffer_not_rejected :
    ([0, 0, 0, 0, 0, 0, 0, 0, 0, 0, 0, 0, 0, 0, 0] : List Nat).length % 16 ≠ 0 ∧
    processNodeBuffer [0, 0, 0, 0, 0, 0, 0, 0, 0, 0, 0, 0, 0, 0, 0] 1
        ⟨0, 0, 0⟩ ⟨0, 0, 0⟩ = .loaded [⟨0, 0, 0⟩] [⟨0, 0, 0⟩] := by
  refine ⟨by norm_num, ?_⟩
  unfold processNodeBuffer parsePoints
  rw [parsePointsFrom, dif_pos (by norm_num)]
  rw [parseRecord_ok _ _ _ _ _ (by norm_num)]
  rw [parsePointsFrom, dif_neg (by norm_num)]
  norm_num [except_bind_ok, decodedPosition, decodedColor, int32OfLEBytes]

/-- C7 amended: a fetched buffer whose length mod 16 lies in 1..14 fails to
decode (an out-of-range `DataView` read throws), the node's load
transitions to `Failed`, and no partial buffer is installed; a buffer whose
length is congruent to 15 mod 16 instead decodes successfully, because the
final 15 bytes form a complete record (the 16th byte of a record is never
read). -/
theorem truncated_buffer_amended (buf : List Nat) (scale : ℚ) (bmin woff : Vec3)
    (hr1 : 1 ≤ buf.length % 16) (hr2 : buf.length % 16 ≤ 14) :
    parsePoints buf scale bmin woff = .error () ∧
    processNodeBuffer buf scale bmin woff = .failed := by
  have herr := parsePointsFrom_err buf scale bmin woff hr1 hr2
    (buf.length + 1) 0 (by omega) (by omega)
  refine ⟨herr, ?_⟩
  unfold processNodeBuffer parsePoints
  rw [herr]

/-- C7 amended witness: a 13-byte buffer fails and the node load ends
`Failed` with nothing installed. -/
theorem truncated_buffer_amended_witness :
    processNodeBuffer [0, 0, 0, 0, 0, 0, 0, 0, 0, 0, 0, 0, 0] 1
        ⟨0, 0, 0⟩ ⟨0, 0, 0⟩ = .failed :=
  (truncated_buffer_amended [0, 0, 0, 0, 0, 0, 0, 0, 0, 0, 0, 0, 0] 1
    ⟨0, 0, 0⟩ ⟨0, 0, 0⟩ (by norm_num) (by norm_num)).2

/-! ### Concrete runs of the edit state machine -/

lemma brush_origin :
    brushContains ⟨0, 0, 0⟩ 1 (addOffset (Pos.fin ⟨0, 0, 0⟩) ⟨0, 0, 0⟩) = true := by
  simp [brushContains, addOffset, dist3Sq]

lemma paint_editInit : paintSelection ⟨0, 0, 0⟩ 1 editInit = stLive [] [] selA 1 := by
  simp [paintSelection, editInit, stLive, selA, bufLive, paintNode, paintStep,
    show List.range 1 = [0] from rfl, brush_origin, selHas, selGet, selInsert,
    List.find?, countSelected]

lemma paint_stLive (ust rst : List SelMap) :
    paintSelection ⟨0, 0, 0⟩ 1 (stLive ust rst [] 0) = stLive ust rst selA 1 := by
  simp [paintSelection, stLive, selA, bufLive, paintNode, paintStep,
    show List.range 1 = [0] from rfl, brush_origin, selHas, selGet, selInsert,
    List.find?, countSelected]

lemma delete_stLive (ust rst : List SelMap) :
    deleteSelectedPoints (stLive ust rst selA 1) = stDead (ust ++ [selA]) [] [] 0 := by
  simp [deleteSelectedPoints, stLive, stDead, selA, bufLive, bufDead,
    markDeletedNode, selGet, List.find?, overwriteIdx]

lemma delete_stDead (ust rst : List SelMap) :
    deleteSelectedPoints (stDead ust rst selA 1) = stDead (ust ++ [selA]) [] [] 0 := by
  simp [deleteSelectedPoints, stDead, selA, bufDead,
    markDeletedNode, selGet, List.find?, overwriteIdx]

lemma undo_stDead (ust rst : List SelMap) (sel : SelMap) (cnt : ℕ) :
    undo (stDead (ust ++ [selA]) rst sel cnt) = stLive ust (rst ++ [selA]) sel cnt := by
  simp [undo, List.getLast?_concat, stLive, stDead, selA, bufLive, bufDead,
    restoreNode, restoreColorsBuf, selGet, List.find?, restoreIdx, restoreColIdx,
    List.dropLast_concat]

lemma redo_stLive (ust rst : List SelMap) (sel : SelMap) (cnt : ℕ) :
    redo (stLive ust (rst ++ [selA]) sel cnt) = stDead (ust ++ [selA]) rst sel cnt := by
  simp [redo, List.getLast?_concat, stLive, stDead, selA, bufLive, bufDead,
    markDeletedNode, selGet, List.find?, overwriteIdx, List.dropLast_concat]

lemma runOps_append (l1 l2 : List EditOp) (s : EditState) :
    runOps (l1 ++ l2) s = runOps l2 (runOps l1 s) :=
  List.foldl_append _ _ _ _

lemma runOps_opsN (n : ℕ) :
    runOps (opsN n) editInit = stDead (List.replicate (n + 1) selA) [] [] 0 := by
  induction n with
  | zero =>
    show runOps [_, _] _ = _
    simp only [runOps, List.foldl_cons, List.foldl_nil, applyOp]
    rw [paint_editInit, delete_stLive]
    rfl
  | succ n ih =>
    rw [opsN, runOps_append, ih]
    show runOps [_, _, _, _] _ = _
    simp only [runOps, List.foldl_cons, List.foldl_nil, applyOp]
    rw [show List.replicate (n + 1) selA = List.replicate n selA ++ [selA] from
          List.replicate_succ' n selA]
    rw [undo_stDead, paint_stLive, redo_stLive, delete_stDead]
    rw [show List.replicate (n + 1 + 1) selA =
          List.replicate n selA ++ [selA] ++ [selA] from by
        rw [List.replicate_succ' (n + 1) selA, List.replicate_succ' n selA]]

/-- C9 counterexample: no fixed capacity bounds the undo stack over command
sequences run from the initial state — `opsN n` (one paint-and-delete
followed by `n` undo/repaint/redo/delete cycles) leaves `n + 1` actions on
the undo stack, exceeding any proposed capacity. -/
theorem undo_stack_unbounded :
    ¬ ∃ cap : ℕ, ∀ ops : List EditOp,
        (runOps ops editInit).undoStack.length ≤ cap := by
  rintro ⟨cap, hcap⟩
  have h := hcap (opsN cap)
  rw [runOps_opsN cap] at h
  simp [stDead] at h

/-- C9 amended: each applied deletion (with a non-empty selection) pushes
exactly one action onto the undo stack and clears the redo stack, but the
history is NOT bounded: there is no fixed capacity — for every `n` the
command sequence `opsN n` drives the undo stack to length `n + 1`. -/
theorem undo_stack_behavior :
    (∀ s : EditState, s.selectionCount ≠ 0 →
      (deleteSelectedPoints s).undoStack.length = s.undoStack.length + 1 ∧
      (deleteSelectedPoints s).redoStack = []) ∧
    (∀ n : ℕ, (runOps (opsN n) editInit).undoStack.length = n + 1) := by
  constructor
  · intro s hcnt
    unfold deleteSelectedPoints
    rw [if_neg hcnt]
    simp
  · intro n
    rw [runOps_opsN n]
    simp [stDead]

/-- C9 witness: the push/clear behaviour applied to a concrete one-point
state with a live selection. -/
theorem undo_stack_behavior_witness :
    (deleteSelectedPoints (stLive [] [] selA 1)).undoStack.length =
        (stLive [] [] selA 1).undoStack.length + 1 ∧
      (deleteSelectedPoints (stLive [] [] selA 1)).redoStack = [] :=
  undo_stack_behavior.1 (stLive [] [] selA 1) (by simp [stLive])

/-! ### Index-preserving buffer updates -/

lemma overwriteIdx_length (idxs : Finset ℕ) (ps : List Pos) (st : ℕ) :
    (overwriteIdx idxs ps st).length = ps.length := by
  induction ps generalizing st with
  | nil => rfl
  | cons p tl ih => simp [overwriteIdx, ih]

lemma overwriteIdx_getD (idxs : Finset ℕ) (ps : List Pos) (st i : ℕ) (d : Pos) :
    (overwriteIdx idxs ps st).getD i d =
      if st + i ∈ idxs ∧ i < ps.length then .inf else ps.getD i d := by
  induction ps generalizing st i with
  | nil => simp [overwriteIdx]
  | cons p tl ih =>
    cases i with
    | zero => simp [overwriteIdx]
    | succ j =>
      simp only [overwriteIdx, List.getD_cons_succ, ih (st + 1) j]
      rw [show st + 1 + j = st + (j + 1) from by omega]
      simp [Nat.succ_lt_succ_iff]

lemma restoreIdx_length (idxs : Finset ℕ) (orig ps : List Pos) (st : ℕ) :
    (restoreIdx idxs orig ps st).length = ps.length := by
  induction ps generalizing st with
  | nil => rfl
  | cons p tl ih => simp [restoreIdx, ih]

lemma restoreIdx_getD (idxs : Finset ℕ) (orig ps : List Pos) (st i : ℕ) (d : Pos) :
    (restoreIdx idxs orig ps st).getD i d =
      if st + i ∈ idxs ∧ i < ps.length then orig.getD (st + i) .inf
      else ps.getD i d := by
  induction ps generalizing st i with
  | nil => simp [restoreIdx]
  | cons p tl ih =>
    cases i with
    | zero => simp [restoreIdx]
    | succ j =>
      simp only [restoreIdx, List.getD_cons_succ, ih (st + 1) j]
      rw [show st + 1 + j = st + (j + 1) from by omega]
      simp [Nat.succ_lt_succ_iff]

lemma restoreColIdx_length (idxs : Finset ℕ) (orig ps : List Col) (st : ℕ) :
    (restoreColIdx idxs orig ps st).length = ps.length := by
  induction ps generalizing st with
  | nil => rfl
  | cons p tl ih => simp [restoreColIdx, ih]

lemma restoreColIdx_getD (idxs : Finset ℕ) (orig ps : List Col) (st i : ℕ) (d : Col) :
    (restoreColIdx idxs orig ps st).getD i d =
      if st + i ∈ idxs ∧ i < ps.length then orig.getD (st + i) ⟨0, 0, 0⟩
      else ps.getD i d := by
  induction ps generalizing st i with
  | nil => simp [restoreColIdx]
  | cons p tl ih =>
    cases i with
    | zero => simp [restoreColIdx]
    | succ j =>
      simp only [restoreColIdx, List.getD_cons_succ, ih (st + 1) j]
      rw [show st + 1 + j = st + (j + 1) from by omega]
      simp [Nat.succ_lt_succ_iff]

lemma list_ext_getD {α : Type} (d : α) (l1 l2 : List α)
    (hl : l1.length = l2.length)
    (h : ∀ i, i < l1.length → l1.getD i d = l2.getD i d) : l1 = l2 := by
  apply List.ext_getElem hl
  intro i h1 h2
  have hi := h i h1
  rwa [List.getD_eq_getElem l1 d h1, List.getD_eq_getElem l2 d h2] at hi

/-! ### Delete / undo / redo round trip -/

lemma selGet_mem (sel : SelMap) (nm : List Nat) (v : Finset ℕ)
    (h : selGet sel nm = some v) : ∃ e ∈ sel, e.1 = nm ∧ e.2 = v := by
  unfold selGet at h
  cases hf : sel.find? (fun p => decide (p.1 = nm)) with
  | none => rw [hf] at h; simp at h
  | some e =>
    rw [hf] at h
    have h2 : e.2 = v := by simpa using h
    refine ⟨e, List.mem_of_find?_eq_some hf, ?_, h2⟩
    have h3 := List.find?_some hf
    simp only [decide_eq_true_eq] at h3
    exact h3

lemma restore_mark_entry (sel : SelMap) (p : List Nat × NodeBuf)
    (hlen : p.2.positions.length = p.2.originalPositions.length)
    (hcol : p.2.colors = p.2.originalColors)
    (hpos : ∀ i, i < p.2.positions.length →
      p.2.positions.getD i .inf =
        (if i ∈ p.2.deletedPoints then .inf else p.2.originalPositions.getD i .inf))
    (hfresh : ∀ i ∈ (selGet sel p.1).getD ∅,
      i ∉ p.2.deletedPoints ∧ i < p.2.positions.length) :
    restoreNode sel (markDeletedNode sel p) = p := by
  obtain ⟨nm, buf⟩ := p
  obtain ⟨pos, col, opos, ocol, del⟩ := buf
  simp only at hlen hcol hpos hfresh
  cases hsel : selGet sel nm with
  | none =>
    unfold markDeletedNode restoreNode
    simp only [hsel]
  | some idxs =>
    by_cases hne : idxs = ∅
    · unfold markDeletedNode
      simp only [hsel]
      rw [if_pos hne]
      unfold restoreNode
      simp only [hsel]
      rw [if_pos hne]
    · have hfresh' : ∀ i ∈ idxs, i ∉ del ∧ i < pos.length := by
        intro i hi
        exact hfresh i (by rw [hsel]; exact hi)
      have hP : restoreIdx idxs opos (overwriteIdx idxs pos 0) 0 = pos := by
        apply list_ext_getD Pos.inf
        · rw [restoreIdx_length, overwriteIdx_length]
        · intro i hil
          rw [restoreIdx_length, overwriteIdx_length] at hil
          rw [restoreIdx_getD, overwriteIdx_length]
          simp only [Nat.zero_add]
          by_cases hi : i ∈ idxs
          · rw [if_pos ⟨hi, hil⟩, hpos i hil, if_neg (hfresh' i hi).1]
          · rw [if_neg (by tauto), overwriteIdx_getD]
            simp only [Nat.zero_add]
            rw [if_neg (by tauto)]
      have hD : (del ∪ idxs) \ idxs = del := by
        ext a
        simp only [Finset.mem_sdiff, Finset.mem_union]
        constructor
        · rintro ⟨h1 | h1, h2⟩
          · exact h1
          · exact absurd h1 h2
        · intro ha
          exact ⟨Or.inl ha, fun hai => (hfresh' a hai).1 ha⟩
      have hC : restoreColIdx idxs ocol col 0 = col := by
        apply list_ext_getD ⟨0, 0, 0⟩
        · rw [restoreColIdx_length]
        · intro i hic
          rw [restoreColIdx_length] at hic
          rw [restoreColIdx_getD]
          simp only [Nat.zero_add]
          by_cases hi : i ∈ idxs
          · rw [if_pos ⟨hi, hic⟩, hcol]
          · rw [if_neg (by tauto)]
      unfold markDeletedNode
      simp only [hsel]
      rw [if_neg hne]
      unfold restoreNode
      simp only [hsel]
      rw [if_neg hne]
      unfold restoreColorsBuf
      simp only
      rw [hP, hC, hD]

/-- C4 amended: from every state with a non-empty selection in which the
buffers are consistent (positions are the original values except the
sentinel on deleted indices, colors are the load-time colors) and no
selected point is currently marked deleted, `deleteSelectedPoints` followed
by `undo` leaves `selectionCount` at 0 and restores every node buffer —
hence every previously-selected point's position and color — exactly to
its pre-deletion value, and a subsequent `redo` re-marks exactly the same
`(node, index)` pairs as deleted with the sentinel positions, restoring the
post-delete node state and stacks. -/
theorem delete_undo_redo_roundtrip (s : EditState) (hcnt : s.selectionCount ≠ 0)
    (hbuf : BufConsistent s) (hfresh : SelFresh s) :
    (undo (deleteSelectedPoints s)).selectionCount = 0 ∧
    (undo (deleteSelectedPoints s)).nodes = s.nodes ∧
    (redo (undo (deleteSelectedPoints s))).nodes = (deleteSelectedPoints s).nodes ∧
    (redo (undo (deleteSelectedPoints s))).undoStack = (deleteSelectedPoints s).undoStack ∧
    (redo (undo (deleteSelectedPoints s))).redoStack = [] := by
  have hdel : deleteSelectedPoints s =
      { s with nodes := s.nodes.map (markDeletedNode s.selectedPoints),
               selectedPoints := [], selectionCount := 0,
               undoStack := s.undoStack ++ [s.selectedPoints], redoStack := [] } := by
    unfold deleteSelectedPoints
    rw [if_neg hcnt]
  have hentry : ∀ p ∈ s.nodes,
      restoreNode s.selectedPoints (markDeletedNode s.selectedPoints p) = p := by
    intro p hp
    obtain ⟨h1, h2, h3⟩ := hbuf p hp
    refine restore_mark_entry _ _ h1 h2 h3 ?_
    intro i hi
    cases hg : selGet s.selectedPoints p.1 with
    | none => rw [hg] at hi; simp at hi
    | some v =>
      rw [hg] at hi
      simp only [Option.getD_some] at hi
      obtain ⟨e, he, hek, hev⟩ := selGet_mem _ _ _ hg
      exact hfresh e he p hp hek.symm i (hev ▸ hi)
  have hmap : (s.nodes.map (markDeletedNode s.selectedPoints)).map
      (restoreNode s.selectedPoints) = s.nodes := by
    rw [List.map_map]
    have h2 : s.nodes.map
        (restoreNode s.selectedPoints ∘ markDeletedNode s.selectedPoints) =
          s.nodes.map id :=
      List.map_congr_left (fun p hp => hentry p hp)
    rw [h2, List.map_id]
  have hundo : undo (deleteSelectedPoints s) =
      { s with nodes := s.nodes,
               selectedPoints := [], selectionCount := 0,
               undoStack := s.undoStack, redoStack := [s.selectedPoints] } := by
    rw [hdel]
    unfold undo
    simp only [List.getLast?_concat]
    rw [List.dropLast_concat]
    simp only [List.nil_append]
    rw [hmap]
  have hredo : redo (undo (deleteSelectedPoints s)) =
      { s with nodes := s.nodes.map (markDeletedNode s.selectedPoints),
               selectedPoints := [], selectionCount := 0,
               undoStack := s.undoStack ++ [s.selectedPoints], redoStack := [] } := by
    rw [hundo]
    unfold redo
    rfl
  rw [hredo, hundo, hdel]
  exact ⟨rfl, rfl, rfl, rfl, rfl⟩

/-- C4 counterexample: the round trip fails from a reachable state in which
a point is selected while already deleted.  The command sequence
paint, delete, undo, paint, redo leaves the root point deleted (sentinel
position) yet still selected; from that state `deleteSelectedPoints`
followed by `undo` sets the point's buffer position to its original value
`(0,0,0)`, NOT to its pre-deletion value, which was the sentinel. -/
theorem delete_undo_roundtrip_cex :
    runOps [.paint ⟨0, 0, 0⟩ 1, .delete, .undo, .paint ⟨0, 0, 0⟩ 1, .redo] editInit =
      stDead [selA] [] selA 1 ∧
    (stDead [selA] [] selA 1).selectionCount ≠ 0 ∧
    ((stDead [selA] [] selA 1).nodes.getD 0 dummyNode).2.positions.getD 0 .inf =
      .inf ∧
    ((undo (deleteSelectedPoints (stDead [selA] [] selA 1))).nodes.getD 0
        dummyNode).2.positions.getD 0 .inf = .fin ⟨0, 0, 0⟩ ∧
    Pos.fin ⟨0, 0, 0⟩ ≠ Pos.inf := by
  refine ⟨?_, by simp [stDead], by simp [stDead, bufDead, dummyNode], ?_, by simp⟩
  · simp only [runOps, List.foldl_cons, List.foldl_nil, applyOp]
    rw [paint_editInit, delete_stLive, undo_stDead, paint_stLive, redo_stLive]
    rfl
  · rw [delete_stDead, undo_stDead]
    simp [stLive, bufLive, dummyNode]

/-- C4 witness: the amended round trip applied to a one-point state with a
fresh selection. -/
theorem delete_undo_redo_roundtrip_witness :
    (undo (deleteSelectedPoints (stLive [] [] selA 1))).selectionCount = 0 ∧
    (undo (deleteSelectedPoints (stLive [] [] selA 1))).nodes =
      (stLive [] [] selA 1).nodes := by
  have hbuf : BufConsistent (stLive [] [] selA 1) := by
    intro p hp
    simp only [stLive, List.mem_singleton] at hp
    subst hp
    refine ⟨rfl, rfl, ?_⟩
    intro i hi
    simp only [bufLive, List.length_singleton] at hi
    interval_cases i
    simp [bufLive]
  have hfresh : SelFresh (stLive [] [] selA 1) := by
    intro e he q hq _ i hi
    simp only [stLive, selA, List.mem_singleton] at he hq
    subst he
    subst hq
    simp only [Finset.mem_singleton] at hi
    subst hi
    simp [bufLive]
  have h := delete_undo_redo_roundtrip (stLive [] [] selA 1)
    (by simp [stLive]) hbuf hfresh
  exact ⟨h.1, h.2.1⟩

/-! ### Deletion preserves indices and excludes deleted points from queries -/

lemma getD_map_nodes (f : List Nat × NodeBuf → List Nat × NodeBuf)
    (l : List (List Nat × NodeBuf)) (k : ℕ) (hk : k < l.length) :
    (l.map f).getD k dummyNode = f (l.getD k dummyNode) := by
  rw [List.getD_eq_getElem _ _ (by simpa using hk), List.getD_eq_getElem _ _ hk,
    List.getElem_map]

lemma selInsert_eq_map (m : SelMap) (k : List Nat) (i : ℕ) :
    selInsert m k i =
      m.map (fun p => (p.1, if p.1 = k then insert i p.2 else p.2)) := by
  unfold selInsert
  apply List.map_congr_left
  intro p _
  by_cases h : p.1 = k
  · simp [h]
  · simp [h]

lemma selGet_map_keyfix (g : List Nat → Finset ℕ → Finset ℕ) (m : SelMap)
    (nm : List Nat) :
    selGet (m.map fun p => (p.1, g p.1 p.2)) nm = (selGet m nm).map (g nm) := by
  induction m with
  | nil => rfl
  | cons e tl ih =>
    by_cases he : e.1 = nm
    · simp [selGet, List.find?_cons, he]
    · unfold selGet at ih ⊢
      simp only [List.map_cons, List.find?_cons]
      rw [show (decide ((e.1, g e.1 e.2).1 = nm)) = false from decide_eq_false he]
      exact ih

lemma selGet_selInsert (m : SelMap) (k : List Nat) (i : ℕ) (nm : List Nat) :
    selGet (selInsert m k i) nm =
      if nm = k then (selGet m nm).map (insert i) else selGet m nm := by
  rw [selInsert_eq_map,
    selGet_map_keyfix (fun k' v => if k' = k then insert i v else v) m nm]
  by_cases hk : nm = k
  · simp [hk]
  · simp [hk]

lemma mem_selGet_append (m : SelMap) (k nm : List Nat) (i : ℕ)
    (h : i ∈ (selGet (m ++ [(k, ∅)]) nm).getD ∅) :
    i ∈ (selGet m nm).getD ∅ := by
  unfold selGet at h ⊢
  rw [List.find?_append] at h
  cases hf : m.find? (fun p => decide (p.1 = nm)) with
  | some e =>
    rw [hf] at h
    simpa using h
  | none =>
    rw [hf] at h
    exfalso
    by_cases hk : k = nm <;> simp [List.find?, hk] at h

lemma paintStep_mem (c : Vec3) (r : ℚ) (off : Vec3) (nm' : List Nat)
    (buf : NodeBuf) (a : SelMap × ℕ) (j x : ℕ) (nm : List Nat)
    (h : x ∈ (selGet (paintStep c r off nm' buf a j).1 nm).getD ∅) :
    x ∈ (selGet a.1 nm).getD ∅ ∨
      (x = j ∧ nm = nm' ∧
        brushContains c r (addOffset (buf.positions.getD j .inf) off) = true) := by
  by_cases hb : brushContains c r (addOffset (buf.positions.getD j .inf) off) = true
  · simp only [paintStep, if_pos hb] at h
    by_cases hh : selHas a.1 nm' = true <;> simp only [hh, if_pos, if_neg,
      Bool.false_eq_true, ite_true, ite_false] at h
    · by_cases hmem : j ∈ (selGet a.1 nm').getD ∅
      · rw [if_pos hmem] at h
        exact Or.inl h
      · rw [if_neg hmem] at h
        rw [selGet_selInsert] at h
        by_cases hnm : nm = nm'
        · rw [if_pos hnm] at h
          cases hg : selGet a.1 nm with
          | none => rw [hg] at h; simp at h
          | some v =>
            rw [hg] at h
            simp only [Option.map_some', Option.getD_some, Finset.mem_insert] at h
            rcases h with h | h
            · exact Or.inr ⟨h, hnm, hb⟩
            · exact Or.inl (by simpa using h)
        · rw [if_neg hnm] at h
          exact Or.inl h
    · by_cases hmem : j ∈ (selGet (a.1 ++ [(nm', ∅)]) nm').getD ∅
      · rw [if_pos hmem] at h
        exact Or.inl (mem_selGet_append _ _ _ _ h)
      · rw [if_neg hmem] at h
        rw [selGet_selInsert] at h
        by_cases hnm : nm = nm'
        · rw [if_pos hnm] at h
          cases hg : selGet (a.1 ++ [(nm', ∅)]) nm with
          | none => rw [hg] at h; simp at h
          | some v =>
            rw [hg] at h
            simp only [Option.map_some', Option.getD_some, Finset.mem_insert] at h
            rcases h with h | h
            · exact Or.inr ⟨h, hnm, hb⟩
            · refine Or.inl (mem_selGet_append a.1 nm' nm x ?_)
              rw [hg]
              simpa using h
        · rw [if_neg hnm] at h
          exact Or.inl (mem_selGet_append _ _ _ _ h)
  · simp only [paintStep, if_neg hb] at h
    exact Or.inl h

lemma paintNode_fold_mem (c : Vec3) (r : ℚ) (off : Vec3) (nm' : List Nat)
    (buf : NodeBuf) :
    ∀ (l : List ℕ) (a : SelMap × ℕ) (x : ℕ) (nm : List Nat),
      x ∈ (selGet (l.foldl (paintStep c r off nm' buf) a).1 nm).getD ∅ →
      x ∈ (selGet a.1 nm).getD ∅ ∨
        (nm = nm' ∧ ∃ j ∈ l,
          x = j ∧
            brushContains c r (addOffset (buf.positions.getD j .inf) off) = true) := by
  intro l
  induction l with
  | nil => intro a x nm h; exact Or.inl h
  | cons j tl ih =>
    intro a x nm h
    rw [List.foldl_cons] at h
    rcases ih _ x nm h with h1 | ⟨hnm, j', hj', hx, hb⟩
    · rcases paintStep_mem c r off nm' buf a j x nm h1 with h2 | ⟨hx, hnm, hb⟩
      · exact Or.inl h2
      · exact Or.inr ⟨hnm, j, List.mem_cons_self j tl, hx, hb⟩
    · exact Or.inr ⟨hnm, j', List.mem_cons_of_mem j hj', hx, hb⟩

lemma paintSelection_fold_mem (c : Vec3) (r : ℚ) (off : Vec3) :
    ∀ (l : List (List Nat × NodeBuf)) (a : SelMap × ℕ) (x : ℕ) (nm : List Nat),
      x ∈ (selGet (l.foldl (fun a p => paintNode c r off p.1 p.2 a) a).1 nm).getD ∅ →
      x ∈ (selGet a.1 nm).getD ∅ ∨
        ∃ q ∈ l, q.1 = nm ∧
          brushContains c r (addOffset (q.2.positions.getD x .inf) off) = true := by
  intro l
  induction l with
  | nil => intro a x nm h; exact Or.inl h
  | cons q tl ih =>
    intro a x nm h
    rw [List.foldl_cons] at h
    rcases ih _ x nm h with h1 | ⟨q', hq', hnm, hb⟩
    · unfold paintNode at h1
      rcases paintNode_fold_mem c r off q.1 q.2 _ a x nm h1 with h2 | ⟨hnm, j, _, hx, hb⟩
      · exact Or.inl h2
      · subst hx
        exact Or.inr ⟨q, List.mem_cons_self q tl, hnm.symm, hb⟩
    · exact Or.inr ⟨q', List.mem_cons_of_mem q hq', hnm, hb⟩

/-- C6: deleting selected points never removes entries from a node's
position array — the node keeps its name and its array length, entries at
non-selected indices are untouched, and each selected in-range index is
overwritten in place with the sentinel; and a point whose stored position
is the sentinel (as every deleted point's is) is never newly selected by
any subsequent `paintSelection`, since the sentinel fails the brush
containment test. -/
theorem deletion_preserves_indices :
    (∀ (s : EditState) (k : ℕ), k < s.nodes.length →
      ((deleteSelectedPoints s).nodes.getD k dummyNode).1 =
        (s.nodes.getD k dummyNode).1 ∧
      ((deleteSelectedPoints s).nodes.getD k dummyNode).2.positions.length =
        (s.nodes.getD k dummyNode).2.positions.length ∧
      (∀ i, i ∉ (selGet s.selectedPoints (s.nodes.getD k dummyNode).1).getD ∅ →
        ((deleteSelectedPoints s).nodes.getD k dummyNode).2.positions.getD i .inf =
          (s.nodes.getD k dummyNode).2.positions.getD i .inf) ∧
      (s.selectionCount ≠ 0 →
        ∀ i ∈ (selGet s.selectedPoints (s.nodes.getD k dummyNode).1).getD ∅,
          i < (s.nodes.getD k dummyNode).2.positions.length →
          ((deleteSelectedPoints s).nodes.getD k dummyNode).2.positions.getD i .inf =
            .inf)) ∧
    (∀ (c : Vec3) (r : ℚ) (s : EditState) (nm : List Nat) (x : ℕ),
      (∀ q ∈ s.nodes, q.1 = nm → q.2.positions.getD x .inf = .inf) →
      x ∈ (selGet (paintSelection c r s).selectedPoints nm).getD ∅ →
      x ∈ (selGet s.selectedPoints nm).getD ∅) := by
  constructor
  · intro s k hk
    by_cases hcnt : s.selectionCount = 0
    · unfold deleteSelectedPoints
      rw [if_pos hcnt]
      exact ⟨rfl, rfl, fun i _ => rfl, fun hc => absurd hcnt hc⟩
    · unfold deleteSelectedPoints
      rw [if_neg hcnt]
      simp only
      rw [getD_map_nodes _ _ _ hk]
      cases hg : selGet s.selectedPoints (s.nodes.getD k dummyNode).1 with
      | none =>
        unfold markDeletedNode
        rw [hg]
        dsimp only
        exact ⟨rfl, rfl, fun i _ => rfl, fun _ i hi _ => by simp at hi⟩
      | some idxs =>
        by_cases hemp : idxs = ∅
        · unfold markDeletedNode
          rw [hg]
          dsimp only
          rw [if_pos hemp]
          refine ⟨rfl, rfl, fun i _ => rfl, fun _ i hi _ => ?_⟩
          simp only [Option.getD_some] at hi
          rw [hemp] at hi
          simp at hi
        · unfold markDeletedNode
          rw [hg]
          dsimp only
          rw [if_neg hemp]
          refine ⟨rfl, by simp [overwriteIdx_length], ?_, ?_⟩
          · intro i hi
            simp only [Option.getD_some] at hi
            simp only
            rw [overwriteIdx_getD]
            simp only [Nat.zero_add]
            rw [if_neg (by tauto)]
          · intro _ i hi hlen
            simp only [Option.getD_some] at hi
            simp only
            rw [overwriteIdx_getD]
            simp only [Nat.zero_add]
            rw [if_pos ⟨hi, hlen⟩]
  · intro c r s nm x hsent hmem
    unfold paintSelection at hmem
    by_cases hnil : s.nodes = []
    · rw [if_pos hnil] at hmem
      exact hmem
    · rw [if_neg hnil] at hmem
      have hm2 : x ∈ (selGet (s.nodes.foldl
          (fun a p => paintNode c r s.viewerOffset p.1 p.2 a)
          (s.selectedPoints, 0)).1 nm).getD ∅ := by
        by_cases hpos : (s.nodes.foldl
            (fun a p => paintNode c r s.viewerOffset p.1 p.2 a)
            (s.selectedPoints, 0)).2 > 0
        · rw [if_pos hpos] at hmem
          exact hmem
        · rw [if_neg hpos] at hmem
          exact hmem
      rcases paintSelection_fold_mem c r s.viewerOffset s.nodes _ x nm hm2 with
        h1 | ⟨q, hq, hqnm, hb⟩
      · exact h1
      · rw [hsent q hq hqnm] at hb
        simp [addOffset, brushContains] at hb

/-- C6 witness: length preservation of the delete applied to the concrete
one-point state. -/
theorem deletion_preserves_indices_witness :
    ((deleteSelectedPoints (stLive [] [] selA 1)).nodes.getD 0 dummyNode).2.positions.length =
      ((stLive [] [] selA 1).nodes.getD 0 dummyNode).2.positions.length :=
  (deletion_preserves_indices.1 (stLive [] [] selA 1) 0 (by simp [stLive])).2.1

end PCV

